import Mathlib

/-!
Verification development for the Code-Knowledge-Graph repository.

The development shallowly embeds the two core source files:

* `extract.py` — the `CodeAnalyzer` syntax-tree visitor, its per-file `analyze`
  entry point and the repository aggregator `extract_from_repo`;
* `load_to_neo4j.py` — the `Neo4jLoader.create_nodes_and_relationships`
  loading protocol, with the Cypher `MERGE`/`MATCH` statements it issues
  modelled by an explicit property-graph state.

Python AST nodes are embedded as inductive types covering exactly the node
shapes the visitor inspects (`ast.Constant`, `ast.Name`, `ast.Attribute`,
`ast.Call`, `ast.Dict`, `ast.List` for expressions; imports, class and
function definitions, assignments, returns, expression statements for
statements).  Decorator argument defaults and annotations, which the visitor
never reads, are not part of the embedded sub-language.
-/

namespace CodeKG

/-- A Python constant value as it can appear in an `ast.Constant` node of the
analysed source (string, integer, boolean or `None`). -/
inductive PyVal where
  | vstr (s : String)
  | vint (n : Int)
  | vbool (b : Bool)
  | vnone
deriving DecidableEq, Repr

/-- Python `str()` of a constant value. -/
def PyVal.pstr : PyVal → String
  | .vstr s => s
  | .vint n => toString n
  | .vbool true => "True"
  | .vbool false => "False"
  | .vnone => "None"

/-- Python `repr()` of a constant value (strings are quoted, as when a list
of keys is stringified by `str(keys)`). -/
def PyVal.prepr : PyVal → String
  | .vstr s => "'" ++ s ++ "'"
  | .vint n => toString n
  | .vbool true => "True"
  | .vbool false => "False"
  | .vnone => "None"

/-- Python `str()` of a list of constant values, as produced by `str(keys)`
in `visit_Return` (e.g. `"['message']"`). -/
def pyStrOfList (l : List PyVal) : String :=
  "[" ++ String.intercalate ", " (l.map PyVal.prepr) ++ "]"

/-- Embedded Python expressions: the `ast` expression shapes inspected by
`CodeAnalyzer`. -/
inductive Expr where
  | constant (v : PyVal)
  | name (id : String)
  | attr (value : Expr) (attr : String)
  | call (func : Expr) (args : List Expr) (keywords : List (Option String × Expr))
  | dict (keys : List (Option Expr)) (values : List Expr)
  | listLit (elts : List Expr)
deriving Repr

/-- Embedded Python statements: the `ast` statement shapes handled by
`CodeAnalyzer` (others fall through `generic_visit` without any effect of
their own, like `pass_`). -/
inductive Stmt where
  | import_ (names : List String)
  | importFrom (module : Option String) (names : List String)
  | classDef (name : String) (bases : List Expr) (body : List Stmt) (decorator_list : List Expr)
  | functionDef (name : String) (args : List String) (body : List Stmt) (decorator_list : List Expr)
  | assign (targets : List Expr) (value : Expr)
  | ret (value : Option Expr)
  | exprStmt (value : Expr)
  | pass_
deriving Repr

/-- An extracted relationship/call/data-flow record: a `(a, b, c)` tuple whose
middle component is the relation tag. -/
abbrev Triple := PyVal × String × PyVal

/-- An extracted entity record `(kind, name, scope)`. -/
abbrev Entity := String × PyVal × PyVal

/-- The mutable state of a `CodeAnalyzer` instance. -/
structure AState where
  filename : String
  entities : List Entity
  relationships : List Triple
  calls : List Triple
  data_flows : List Triple
  current_class : Option String
  current_function : Option String
  api_endpoints : List (String × PyVal)
  /-- the `self.variables` set of defined variable names -/
  vars : List String
deriving Repr

/-- `os.path.normpath(filename).replace("\\", "/")`; `normpath` is modelled
as the identity on the already-normalised paths that the aggregator hands
over, composed with the separator replacement the source performs (the
pattern is the single character `\`, so the replacement is a character map). -/
def normalizePath (p : String) : String :=
  String.mk (p.data.map (fun c => if c = '\\' then '/' else c))

/-- One alias of a `visit_Import` handler: a `Library` entity plus an
`IMPORTS` relationship from the file. -/
def importStep (fname : String) (s : AState) (nm : String) : AState :=
  { s with entities := s.entities ++ [("Library", .vstr nm, .vstr fname)],
           relationships := s.relationships ++ [(.vstr fname, "IMPORTS", .vstr nm)] }

/-- One alias of a `visit_ImportFrom` handler: an `Import` entity scoped to
the file plus a `PROVIDES` relationship from the module. -/
def importFromAliasStep (fname m : String) (s : AState) (nm : String) : AState :=
  { s with entities := s.entities ++ [("Import", .vstr nm, .vstr fname)],
           relationships := s.relationships ++ [(.vstr m, "PROVIDES", .vstr nm)] }

/-- One base-class reference of `visit_ClassDef`: only `ast.Name` bases yield
a `Class` entity and an `INHERITS_FROM` relationship. -/
def baseStep (cname fname : String) (s : AState) (b : Expr) : AState :=
  match b with
  | .name id =>
      { s with entities := s.entities ++ [("Class", .vstr id, .vstr fname)],
               relationships := s.relationships ++ [(.vstr cname, "INHERITS_FROM", .vstr id)] }
  | _ => s

/-- One declared parameter of `visit_FunctionDef`: every argument whose name
is not `'self'` yields a `Parameter` entity scoped to the function name and
an `ACCEPTS` relationship. -/
def paramStep (fname : String) (s : AState) (arg : String) : AState :=
  if arg != "self" then
    { s with entities := s.entities ++ [("Parameter", .vstr arg, .vstr fname)],
             relationships := s.relationships ++ [(.vstr fname, "ACCEPTS", .vstr arg)] }
  else s

/-- One element of a `methods=[...]` keyword list: constant elements yield a
`SUPPORTS` relationship from the route and an `HTTP_Method` entity scoped to
the route string. -/
def methodEltStep (route : PyVal) (s : AState) (e : Expr) : AState :=
  match e with
  | .constant m =>
      { s with relationships := s.relationships ++ [(route, "SUPPORTS", m)],
               entities := s.entities ++ [("HTTP_Method", m, route)] }
  | _ => s

/-- One keyword of a route decorator call: only `methods=` keywords whose
value is a list literal are inspected. -/
def methodsKwStep (route : PyVal) (s : AState) (kw : Option String × Expr) : AState :=
  if kw.1 == some "methods" then
    match kw.2 with
    | .listLit elts => elts.foldl (methodEltStep route) s
    | _ => s
  else s

/-- The route-recognizer half of the decorator loop in `visit_FunctionDef`:
a decorator that is a call on an attribute named `route` with a constant
first argument yields the API endpoint records. -/
def decoratorRoute (fname : String) (s : AState) (d : Expr) : AState :=
  match d with
  | .call (.attr _ attr) dargs kws =>
      if attr == "route" && !dargs.isEmpty then
        match dargs with
        | .constant route_path :: _ =>
            let s1 := { s with
              api_endpoints := s.api_endpoints ++ [(fname, route_path)],
              entities := s.entities ++ [("API_Endpoint", route_path, .vstr s.filename)],
              relationships := s.relationships ++ [(.vstr fname, "EXPOSES", route_path)] }
            kws.foldl (methodsKwStep route_path) s1
        | _ => s
      else s
  | _ => s

/-- The bare-name/attribute half of the decorator loop: `DECORATED_BY`
relationships. -/
def decoratorNamed (fname : String) (s : AState) (d : Expr) : AState :=
  match d with
  | .name id =>
      { s with relationships := s.relationships ++ [(.vstr fname, "DECORATED_BY", .vstr id)] }
  | .attr _ attr =>
      { s with relationships := s.relationships ++ [(.vstr fname, "DECORATED_BY", .vstr attr)] }
  | _ => s

/-- One iteration of the decorator loop of `visit_FunctionDef`: the route
block runs first, then the name/attribute block. -/
def decoratorStep (fname : String) (s : AState) (d : Expr) : AState :=
  decoratorNamed fname (decoratorRoute fname s d) d

/-- The head of `visit_Call` (everything before its `generic_visit`):
records `CALLS` plus, for the known API patterns, `USES_INPUT` (qualified
`object.method` target) or `MAKES_REQUEST` (bare method-name target). -/
def callHead (s : AState) (f : Expr) : AState :=
  match s.current_function with
  | some cf =>
      match f with
      | .name id => { s with calls := s.calls ++ [(.vstr cf, "CALLS", .vstr id)] }
      | .attr (.name obj) m =>
          let s1 := { s with calls := s.calls ++ [(.vstr cf, "CALLS", .vstr m)] }
          if obj == "request" && ["json", "args", "get"].contains m then
            { s1 with relationships :=
                s1.relationships ++ [(.vstr cf, "USES_INPUT", .vstr (obj ++ "." ++ m))] }
          else if obj == "requests" && ["get", "post", "put", "delete"].contains m then
            { s1 with relationships :=
                s1.relationships ++ [(.vstr cf, "MAKES_REQUEST", .vstr m)] }
          else s1
      | _ => s
  | none => s

/-- One target of the `visit_Assign` target loop: a simple-name target is
collected, added to the variable set, and (inside a function) yields a
`Variable` entity and a `DEFINES_VAR` relationship. -/
def assignTargetStep (acc : AState × List String) (t : Expr) : AState × List String :=
  match t with
  | .name id =>
      let s0 := acc.1
      let s1 := { s0 with vars :=
        if s0.vars.contains id then s0.vars else s0.vars ++ [id] }
      let s2 := match s1.current_function with
        | some cf =>
            { s1 with entities := s1.entities ++ [("Variable", .vstr id, .vstr cf)],
                      relationships := s1.relationships ++ [(.vstr cf, "DEFINES_VAR", .vstr id)] }
        | none => s1
      (s2, acc.2 ++ [id])
  | _ => acc

/-- The target loop of `visit_Assign`. -/
def assignTargets (s : AState) (targets : List Expr) : AState × List String :=
  targets.foldl assignTargetStep (s, [])

/-- The data-flow tail of `visit_Assign`: a constant or name source flows to
each collected target. -/
def dataFlowStep (s : AState) (value : Expr) (tgts : List String) : AState :=
  match value with
  | .constant v =>
      tgts.foldl (fun acc t =>
        { acc with data_flows := acc.data_flows ++ [(.vstr v.pstr, "FLOW_TO", .vstr t)] }) s
  | .name src =>
      tgts.foldl (fun acc t =>
        { acc with data_flows := acc.data_flows ++ [(.vstr src, "FLOW_TO", .vstr t)] }) s
  | _ => s

/-- The constant keys of a returned dict literal, in declaration order. -/
def dictConstKeys (keys : List (Option Expr)) : List PyVal :=
  keys.foldl (fun acc k =>
    match k with
    | some (.constant v) => acc ++ [v]
    | _ => acc) []

/-- The classification step of `visit_FunctionDef`: inside a class scope the
definition is a `Method` of the class, otherwise a `Function` contained in
the file. -/
def funcClassify (s : AState) (name : String) : AState :=
  match s.current_class with
  | some c =>
      { s with entities := s.entities ++ [("Method", .vstr name, .vstr c)],
               relationships := s.relationships ++ [(.vstr c, "DEFINES", .vstr name)] }
  | none =>
      { s with entities := s.entities ++ [("Function", .vstr name, .vstr s.filename)],
               relationships := s.relationships ++ [(.vstr s.filename, "CONTAINS", .vstr name)] }

/-- The head of `visit_Return` (everything before its `generic_visit`):
a returned dict literal with constant keys yields `RETURNS_FIELDS`, a
returned call of a bare name yields `RETURNS_FROM`. -/
def returnHead (s : AState) (value : Option Expr) : AState :=
  match s.current_function with
  | some cf =>
      match value with
      | some (.dict keys _) =>
          let ks := dictConstKeys keys
          if !ks.isEmpty then
            { s with relationships :=
                s.relationships ++ [(.vstr cf, "RETURNS_FIELDS", .vstr (pyStrOfList ks))] }
          else s
      | some (.call (.name fn) _ _) =>
          { s with relationships := s.relationships ++ [(.vstr cf, "RETURNS_FROM", .vstr fn)] }
      | _ => s
  | none => s

mutual

/-- `CodeAnalyzer.visit` on one expression: only `visit_Call` is a defined
handler; all other expressions fall through `generic_visit`, which visits
their child expressions. -/
def visitExpr (s : AState) : Expr → AState
  | .constant _ => s
  | .name _ => s
  | .attr v _ => visitExpr s v
  | .call f args kws =>
      let s1 := callHead s f
      let s2 := visitExpr s1 f
      let s3 := visitExprs s2 args
      visitKws s3 kws
  | .dict keys values =>
      let s1 := visitOptExprs s keys
      visitExprs s1 values
  | .listLit elts => visitExprs s elts

/-- Visit a list of child expressions in order. -/
def visitExprs (s : AState) : List Expr → AState
  | [] => s
  | e :: rest => visitExprs (visitExpr s e) rest

/-- Visit the (optional) keys of a dict literal; `None` keys (from `**`
expansion) are skipped by `generic_visit`. -/
def visitOptExprs (s : AState) : List (Option Expr) → AState
  | [] => s
  | none :: rest => visitOptExprs s rest
  | some e :: rest => visitOptExprs (visitExpr s e) rest

/-- Visit keyword-argument values of a call. -/
def visitKws (s : AState) : List (Option String × Expr) → AState
  | [] => s
  | kw :: rest => visitKws (visitExpr s kw.2) rest

end

mutual

/-- `CodeAnalyzer.visit` on one statement: the defined handlers
(`visit_Import`, `visit_ImportFrom`, `visit_ClassDef`, `visit_FunctionDef`,
`visit_Assign`, `visit_Return`) followed — where the handler calls it — by
`generic_visit` over the child nodes in field order. -/
def visitStmt (s : AState) : Stmt → AState
  | .import_ names => names.foldl (importStep s.filename) s
  | .importFrom module names =>
      match module with
      | some m =>
          let s1 := { s with
            entities := s.entities ++ [("Library", .vstr m, .vstr s.filename)],
            relationships := s.relationships ++ [(.vstr s.filename, "IMPORTS", .vstr m)] }
          names.foldl (importFromAliasStep s.filename m) s1
      | none => s
  | .classDef name bases body decs =>
      let s1 := { s with
        entities := s.entities ++ [("Class", .vstr name, .vstr s.filename)],
        relationships := s.relationships ++ [(.vstr s.filename, "CONTAINS", .vstr name)] }
      let s2 := bases.foldl (baseStep name s.filename) s1
      let old_class := s2.current_class
      let s3 := { s2 with current_class := some name }
      let s4 := visitExprs s3 bases
      let s5 := visitStmts s4 body
      let s6 := visitExprs s5 decs
      { s6 with current_class := old_class }
  | .functionDef name args body decs =>
      let old_function := s.current_function
      let s0 := { s with current_function := some name }
      let s1 := funcClassify s0 name
      let s2 := args.foldl (paramStep name) s1
      let s3 := decs.foldl (decoratorStep name) s2
      let s4 := visitStmts s3 body
      let s5 := visitExprs s4 decs
      { s5 with current_function := old_function }
  | .assign targets value =>
      let p := assignTargets s targets
      let s2 := dataFlowStep p.1 value p.2
      let s3 := visitExprs s2 targets
      visitExpr s3 value
  | .ret value =>
      let s1 := returnHead s value
      match value with
      | some v => visitExpr s1 v
      | none => s1
  | .exprStmt v => visitExpr s v
  | .pass_ => s

/-- Visit a list of statements in order (the `generic_visit` over a body). -/
def visitStmts (s : AState) : List Stmt → AState
  | [] => s
  | t :: rest => visitStmts (visitStmt s t) rest

end

/-- A source file as seen by `CodeAnalyzer.analyze`: either a parsed module
(together with the result of the `_find_flask_app` regex search over the raw
text, of which only the matched app name is relevant) or a file whose
`ast.parse` raises a `SyntaxError`. -/
inductive PyFile where
  | parsed (body : List Stmt) (flaskApp : Option String)
  | parseFailure (msg : String)

/-- The five de-duplicated record sets returned by `analyze`. -/
structure Bundle where
  entities : List Entity
  relationships : List Triple
  calls : List Triple
  data_flows : List Triple
  api_endpoints : List (String × PyVal)
deriving DecidableEq, Repr

/-- A fresh `CodeAnalyzer.__init__` state. -/
def initState (filename : String) : AState :=
  { filename := normalizePath filename, entities := [], relationships := [], calls := [],
    data_flows := [], current_class := none, current_function := none,
    api_endpoints := [], vars := [] }

/-- `_find_flask_app`: when the Flask-app regex matched an app name, append
the `WebApp` entity and the file-level `DEFINES` relationship. -/
def find_flask_app (s : AState) (app : Option String) : AState :=
  match app with
  | some a =>
      { s with entities := s.entities ++ [("WebApp", .vstr a, .vstr s.filename)],
               relationships := s.relationships ++ [(.vstr s.filename, "DEFINES", .vstr a)] }
  | none => s

/-- The empty record bundle returned when parsing fails. -/
def emptyBundle : Bundle := ⟨[], [], [], [], []⟩

/-- `CodeAnalyzer.analyze`: parse, visit, run the Flask-app search and
de-duplicate (`list(set(...))`); a `SyntaxError` is caught and yields the
empty bundle. -/
def analyze (filename : String) (f : PyFile) : Bundle :=
  match f with
  | .parsed body app =>
      let s := find_flask_app (visitStmts (initState filename) body) app
      ⟨s.entities.dedup, s.relationships.dedup, s.calls.dedup,
       s.data_flows.dedup, s.api_endpoints.dedup⟩
  | .parseFailure _ => emptyBundle

/-- A file met during the repository walk: its path and its content. -/
structure SrcFile where
  path : String
  content : PyFile

/-- `extract_from_file`. -/
def extract_from_file (f : SrcFile) : Bundle := analyze f.path f.content

/-- Concatenation of the per-file record sets (`all_entities.extend(...)`
etc.). -/
def bundleAppend (a b : Bundle) : Bundle :=
  ⟨a.entities ++ b.entities, a.relationships ++ b.relationships, a.calls ++ b.calls,
   a.data_flows ++ b.data_flows, a.api_endpoints ++ b.api_endpoints⟩

/-- `extract_from_repo`: the directory walk is modelled by the list of files
in traversal order; only `.py` files are analysed, the per-file record sets
are concatenated and finally de-duplicated. -/
def extract_from_repo (files : List SrcFile) : Bundle :=
  let raw := (files.filter (fun f => f.path.endsWith ".py")).foldl
      (fun acc f => bundleAppend acc (extract_from_file f)) emptyBundle
  ⟨raw.entities.dedup, raw.relationships.dedup, raw.calls.dedup,
   raw.data_flows.dedup, raw.api_endpoints.dedup⟩

end CodeKG

namespace Loader

/-!
Model of `load_to_neo4j.py`'s `Neo4jLoader.create_nodes_and_relationships`.

The property-graph store is modelled by an explicit state: a list of nodes
(each with one label, a `name` property, and an optional `file` property)
and a list of typed edges between nodes.  The Cypher statements the loader
issues are modelled by their standard semantics:

* `MERGE (n:L {props})` matches any node carrying label `L` and the listed
  properties and creates the node only when no match exists;
* `MATCH (a:…), (b:…) MERGE (a)-[r:T]->(b)` merges a `T` edge for every
  pair of nodes matched by the two patterns;
* `CREATE CONSTRAINT …` (`create_schema_constraints`) declares uniqueness
  constraints only and does not change the graph data, so it has no
  counterpart in the state.

Queries are parameterised by strings, so a loader-side bundle is a list of
string triples.
-/

/-- A persisted graph node: one label, a `name` property and an optional
`file` property. -/
structure GNode where
  label : String
  name : String
  file : Option String
deriving DecidableEq, Repr

/-- A persisted typed edge. -/
abbrev GEdge := GNode × String × GNode

/-- The persisted graph. -/
structure GraphState where
  nodes : List GNode
  edges : List GEdge
deriving DecidableEq, Repr

/-- A loader-side entity tuple `(entity_type, name, file)`. -/
abbrev LEntity := String × String × String

/-- A loader-side relationship/call tuple `(source, relation, target)`. -/
abbrev LRel := String × String × String

/-- `MERGE` of a node: if some node matches the pattern, nothing happens,
otherwise the node described by the pattern is created. -/
def mergeNode (p : GNode → Bool) (v : GNode) (s : GraphState) : GraphState :=
  if s.nodes.any p then s else { s with nodes := s.nodes ++ [v] }

/-- Pattern `(f:File {name: $name})`. -/
def matchFile (nm : String) (n : GNode) : Bool := n.label == "File" && n.name == nm

/-- Pattern `(n:{entity_type} {name: $name, file: $file})`. -/
def matchTyped (lbl nm fl : String) (n : GNode) : Bool :=
  n.label == lbl && n.name == nm && n.file == some fl

/-- Pattern `(a:{label} {name: $nm})`. -/
def matchLN (lbl nm : String) (n : GNode) : Bool := n.label == lbl && n.name == nm

/-- Untyped pattern `(b {name: $nm})`. -/
def matchName (nm : String) (n : GNode) : Bool := n.name == nm

/-- `'/' in file or '\\' in file` — the scope string looks like a path
(single-character containment, expressed over the string's characters). -/
def hasPathSep (f : String) : Bool := f.data.contains '/' || f.data.contains '\\'

/-- One entity of `create_file_nodes`: scopes that look like paths are
merged as `File` nodes keyed by `name` alone. -/
def fileNodeStep (s : GraphState) (e : LEntity) : GraphState :=
  if hasPathSep e.2.2 then mergeNode (matchFile e.2.2) ⟨"File", e.2.2, none⟩ s else s

/-- `create_file_nodes` (the intermediate Python `set` only removes
duplicates, which `MERGE` makes irrelevant). -/
def create_file_nodes (entities : List LEntity) (s : GraphState) : GraphState :=
  entities.foldl fileNodeStep s

/-- Step 1 of the loader: `MERGE (n:{entity_type} {name: $name, file: $file})`. -/
def entityNodeStep (s : GraphState) (e : LEntity) : GraphState :=
  mergeNode (matchTyped e.1 e.2.1 e.2.2) ⟨e.1, e.2.1, some e.2.2⟩ s

/-- All edges a `MATCH (a), (b) … MERGE (a)-[r:rel]->(b)` statement asks
for: one per pair of nodes matched by the two patterns. -/
def requiredEdges (pa pb : GNode → Bool) (rel : String) (nodes : List GNode) : List GEdge :=
  (nodes.filter pa).foldr (fun a acc => (nodes.filter pb).map (fun b => (a, rel, b)) ++ acc) []

/-- Merge one edge: created only when absent. -/
def addEdge (es : List GEdge) (e : GEdge) : List GEdge :=
  if e ∈ es then es else es ++ [e]

/-- One `MATCH … MERGE` edge statement. -/
def mergeEdges (pa pb : GNode → Bool) (rel : String) (s : GraphState) : GraphState :=
  { s with edges := (requiredEdges pa pb rel s.nodes).foldl addEdge s.edges }

/-- Step 2 of the loader, one relationship tuple: `CONTAINS` resolves the
target type from the entity list (first entity with a matching name) with
an untyped fallback, `IMPORTS` is `File→Library`, `DEFINES` is
`Class→Method`; for every other relation `query` stays `None` and no
statement is issued. -/
def relStep (entities : List LEntity) (s : GraphState) (r : LRel) : GraphState :=
  if r.2.1 = "CONTAINS" then
    match entities.find? (fun e => e.2.1 == r.2.2) with
    | some e => mergeEdges (matchLN "File" r.1) (matchLN e.1 r.2.2) "CONTAINS" s
    | none => mergeEdges (matchLN "File" r.1) (matchName r.2.2) "CONTAINS" s
  else if r.2.1 = "IMPORTS" then
    mergeEdges (matchLN "File" r.1) (matchLN "Library" r.2.2) "IMPORTS" s
  else if r.2.1 = "DEFINES" then
    mergeEdges (matchLN "Class" r.1) (matchLN "Method" r.2.2) "DEFINES" s
  else s

/-- `(a:Function OR a:Method) AND a.name = $source`. -/
def callMatchSrc (nm : String) (n : GNode) : Bool :=
  (n.label == "Function" || n.label == "Method") && n.name == nm

/-- `(b:Function OR b:Method OR b:Library) AND b.name = $target`. -/
def callMatchTgt (nm : String) (n : GNode) : Bool :=
  (n.label == "Function" || n.label == "Method" || n.label == "Library") && n.name == nm

/-- Step 3 of the loader, one call tuple. -/
def callStep (s : GraphState) (r : LRel) : GraphState :=
  if r.2.1 = "CALLS" then
    mergeEdges (callMatchSrc r.1) (callMatchTgt r.2.2) "CALLS" s
  else s

/-- `Neo4jLoader.create_nodes_and_relationships`: file nodes, entity nodes,
relationship edges, then call edges (`verify_relationships` only reads). -/
def create_nodes_and_relationships (entities : List LEntity)
    (relationships calls : List LRel) (s : GraphState) : GraphState :=
  let s1 := create_file_nodes entities s
  let s2 := entities.foldl entityNodeStep s1
  let s3 := relationships.foldl (relStep entities) s2
  calls.foldl callStep s3

/-! Generic views of the loader steps: every node-creating step merges a
node against a pattern the node itself satisfies, and every edge-creating
step merges the edges demanded by a pair of patterns.  These views let the
convergence argument be made once. -/

/-- A node-merging step described by an optional pattern/node pair. -/
def nodeSpecApply (g : α → Option ((GNode → Bool) × GNode)) (s : GraphState) (e : α) : GraphState :=
  match g e with
  | some pv => mergeNode pv.1 pv.2 s
  | none => s

/-- An edge-merging step described by an optional pattern/pattern/relation
triple. -/
def edgeSpecApply (f : α → Option ((GNode → Bool) × (GNode → Bool) × String))
    (s : GraphState) (r : α) : GraphState :=
  match f r with
  | some pr => mergeEdges pr.1 pr.2.1 pr.2.2 s
  | none => s

/-- The pattern/node pair of `fileNodeStep`. -/
def fileSpec (e : LEntity) : Option ((GNode → Bool) × GNode) :=
  if hasPathSep e.2.2 then some (matchFile e.2.2, ⟨"File", e.2.2, none⟩) else none

/-- The pattern/node pair of `entityNodeStep`. -/
def entitySpec (e : LEntity) : Option ((GNode → Bool) × GNode) :=
  some (matchTyped e.1 e.2.1 e.2.2, ⟨e.1, e.2.1, some e.2.2⟩)

/-- The edge statement chosen by `relStep`. -/
def relSpec (entities : List LEntity) (r : LRel) :
    Option ((GNode → Bool) × (GNode → Bool) × String) :=
  if r.2.1 = "CONTAINS" then
    match entities.find? (fun e => e.2.1 == r.2.2) with
    | some e => some (matchLN "File" r.1, matchLN e.1 r.2.2, "CONTAINS")
    | none => some (matchLN "File" r.1, matchName r.2.2, "CONTAINS")
  else if r.2.1 = "IMPORTS" then some (matchLN "File" r.1, matchLN "Library" r.2.2, "IMPORTS")
  else if r.2.1 = "DEFINES" then some (matchLN "Class" r.1, matchLN "Method" r.2.2, "DEFINES")
  else none

/-- The edge statement chosen by `callStep`. -/
def callSpec (r : LRel) : Option ((GNode → Bool) × (GNode → Bool) × String) :=
  if r.2.1 = "CALLS" then some (callMatchSrc r.1, callMatchTgt r.2.2, "CALLS") else none

/-- Every node spec used by the loader produces a node satisfying its own
match pattern. -/
def NodeSpecSound (g : α → Option ((GNode → Bool) × GNode)) : Prop :=
  ∀ e pv, g e = some pv → pv.1 pv.2 = true

end Loader

namespace CodeKG

/-!
Auxiliary definitions used to state and prove properties of the visitor:
explicit descriptions of the record lists the non-recursive handler loops
append, and additive relations between visitor states.
-/

/-- The `Parameter` entities the parameter loop of `visit_FunctionDef`
appends: one per declared argument not named `'self'`. -/
def paramsEnts (fname : String) (args : List String) : List Entity :=
  (args.filter (fun a => a != "self")).map (fun a => ("Parameter", .vstr a, .vstr fname))

/-- The `ACCEPTS` relationships the parameter loop appends. -/
def paramsRels (fname : String) (args : List String) : List Triple :=
  (args.filter (fun a => a != "self")).map (fun a => (.vstr fname, "ACCEPTS", .vstr a))

/-- The `Library` entities of `visit_Import`. -/
def importEnts (fname : String) (names : List String) : List Entity :=
  names.map (fun nm => ("Library", .vstr nm, .vstr fname))

/-- The `IMPORTS` relationships of `visit_Import`. -/
def importRels (fname : String) (names : List String) : List Triple :=
  names.map (fun nm => (.vstr fname, "IMPORTS", .vstr nm))

/-- States `t` reachable from `s` by appending call and relationship records
only, where every appended relationship is one of the two semantic API
relations of `visit_Call`; this is exactly what visiting any expression can
do to the state. -/
def CRAdded (s t : AState) : Prop :=
  ∃ cs rs, t = { s with calls := s.calls ++ cs, relationships := s.relationships ++ rs } ∧
    ∀ x ∈ rs, x.2.1 = "USES_INPUT" ∨ x.2.1 = "MAKES_REQUEST"

/-- States `t` reachable from `s` by a statement visit, as far as the
scope slots, entity list and relationship list are concerned: the scope
slots and filename are restored, entities and relationships only grow, and
— when a class scope is open — no `Function` entity is ever appended. -/
def StmtAdds (s t : AState) : Prop :=
  t.filename = s.filename ∧
  t.current_class = s.current_class ∧
  t.current_function = s.current_function ∧
  (∃ es, t.entities = s.entities ++ es ∧
    (s.current_class.isSome → ∀ x ∈ es, x.1 ≠ "Function")) ∧
  (∃ rs, t.relationships = s.relationships ++ rs)

end CodeKG

namespace Loader

theorem fileNodeStep_eq (s : GraphState) (e : LEntity) :
    fileNodeStep s e = nodeSpecApply fileSpec s e := by
  unfold fileNodeStep nodeSpecApply fileSpec
  split <;> simp_all

theorem entityNodeStep_eq (s : GraphState) (e : LEntity) :
    entityNodeStep s e = nodeSpecApply entitySpec s e := rfl

theorem relStep_eq (entities : List LEntity) (s : GraphState) (r : LRel) :
    relStep entities s r = edgeSpecApply (relSpec entities) s r := by
  unfold relStep edgeSpecApply relSpec
  split
  · split <;> simp_all
  · split
    · simp_all
    · split <;> simp_all

theorem callStep_eq (s : GraphState) (r : LRel) :
    callStep s r = edgeSpecApply callSpec s r := by
  unfold callStep edgeSpecApply callSpec
  split <;> simp_all

theorem fileSpec_sound : NodeSpecSound fileSpec := by
  intro e pv h
  unfold fileSpec at h
  split at h
  · cases h; simp [matchFile]
  · cases h

theorem entitySpec_sound : NodeSpecSound entitySpec := by
  intro e pv h
  cases h; simp [matchTyped]

/-! Basic `MERGE` lemmas. -/

theorem mergeNode_edges (p : GNode → Bool) (v : GNode) (s : GraphState) :
    (mergeNode p v s).edges = s.edges := by
  unfold mergeNode; split <;> rfl

theorem mergeNode_any_mono (p q : GNode → Bool) (v : GNode) (s : GraphState)
    (h : s.nodes.any q = true) : (mergeNode p v s).nodes.any q = true := by
  unfold mergeNode; split
  · exact h
  · simp only [List.any_append, h, Bool.true_or]

theorem mergeNode_any_self (p : GNode → Bool) (v : GNode) (s : GraphState)
    (h : p v = true) : (mergeNode p v s).nodes.any p = true := by
  unfold mergeNode; split
  · assumption
  · simp [h]

theorem mergeNode_stable (p : GNode → Bool) (v : GNode) (s : GraphState)
    (h : s.nodes.any p = true) : mergeNode p v s = s := by
  unfold mergeNode; simp [h]

theorem mem_addEdge (es : List GEdge) (e x : GEdge) (h : x ∈ es) : x ∈ addEdge es e := by
  unfold addEdge; split
  · exact h
  · exact List.mem_append_left _ h

theorem mem_addEdge_self (es : List GEdge) (e : GEdge) : e ∈ addEdge es e := by
  unfold addEdge; split
  · assumption
  · simp

theorem addEdge_id (es : List GEdge) (e : GEdge) (h : e ∈ es) : addEdge es e = es := by
  unfold addEdge; simp [h]

theorem foldl_addEdge_mono (l : List GEdge) (es : List GEdge) (x : GEdge) (h : x ∈ es) :
    x ∈ l.foldl addEdge es := by
  induction l generalizing es with
  | nil => exact h
  | cons a t ih => exact ih _ (mem_addEdge _ _ _ h)

theorem foldl_addEdge_mem (l : List GEdge) (es : List GEdge) (x : GEdge) (h : x ∈ l) :
    x ∈ l.foldl addEdge es := by
  induction l generalizing es with
  | nil => cases h
  | cons a t ih =>
    simp only [List.foldl_cons]
    rcases List.mem_cons.mp h with rfl | hx
    · exact foldl_addEdge_mono _ _ _ (mem_addEdge_self _ _)
    · exact ih _ hx

theorem foldl_addEdge_id (l : List GEdge) (es : List GEdge) (h : ∀ x ∈ l, x ∈ es) :
    l.foldl addEdge es = es := by
  induction l with
  | nil => rfl
  | cons a t ih =>
    simp only [List.foldl_cons]
    rw [addEdge_id _ _ (h a (by simp))]
    exact ih (fun x hx => h x (List.mem_cons_of_mem _ hx))

theorem mergeEdges_nodes (pa pb : GNode → Bool) (rel : String) (s : GraphState) :
    (mergeEdges pa pb rel s).nodes = s.nodes := rfl

theorem mergeEdges_edges_mono (pa pb : GNode → Bool) (rel : String) (s : GraphState)
    (x : GEdge) (h : x ∈ s.edges) : x ∈ (mergeEdges pa pb rel s).edges :=
  foldl_addEdge_mono _ _ _ h

theorem mergeEdges_ensures (pa pb : GNode → Bool) (rel : String) (s : GraphState)
    (x : GEdge) (h : x ∈ requiredEdges pa pb rel s.nodes) :
    x ∈ (mergeEdges pa pb rel s).edges :=
  foldl_addEdge_mem _ _ _ h

theorem mergeEdges_stable (pa pb : GNode → Bool) (rel : String) (s : GraphState)
    (h : ∀ x ∈ requiredEdges pa pb rel s.nodes, x ∈ s.edges) :
    mergeEdges pa pb rel s = s := by
  unfold mergeEdges
  rw [foldl_addEdge_id _ _ h]

/-! Fold-level lemmas for node phases. -/

theorem nodeFold_edges (g : α → Option ((GNode → Bool) × GNode)) (l : List α) (s : GraphState) :
    (l.foldl (nodeSpecApply g) s).edges = s.edges := by
  induction l generalizing s with
  | nil => rfl
  | cons a t ih =>
    simp only [List.foldl_cons]
    rw [ih]
    unfold nodeSpecApply
    split
    · exact mergeNode_edges _ _ _
    · rfl

theorem nodeFold_any_mono (g : α → Option ((GNode → Bool) × GNode)) (l : List α)
    (s : GraphState) (q : GNode → Bool) (h : s.nodes.any q = true) :
    (l.foldl (nodeSpecApply g) s).nodes.any q = true := by
  induction l generalizing s with
  | nil => exact h
  | cons a t ih =>
    simp only [List.foldl_cons]
    refine ih _ ?_
    unfold nodeSpecApply
    split
    · exact mergeNode_any_mono _ _ _ _ h
    · exact h

theorem nodeFold_ensures (g : α → Option ((GNode → Bool) × GNode)) (hg : NodeSpecSound g)
    (e : α) (pv : (GNode → Bool) × GNode) (hpv : g e = some pv) :
    ∀ (l : List α) (s : GraphState), e ∈ l →
      (l.foldl (nodeSpecApply g) s).nodes.any pv.1 = true := by
  intro l
  induction l with
  | nil => intro s he; cases he
  | cons a t ih =>
    intro s he
    simp only [List.foldl_cons]
    rcases List.mem_cons.mp he with rfl | he'
    · refine nodeFold_any_mono _ _ _ _ ?_
      unfold nodeSpecApply
      rw [hpv]
      exact mergeNode_any_self _ _ _ (hg _ _ hpv)
    · exact ih _ he'

theorem nodeFold_stable (g : α → Option ((GNode → Bool) × GNode)) (l : List α)
    (s : GraphState)
    (h : ∀ e ∈ l, ∀ pv, g e = some pv → s.nodes.any pv.1 = true) :
    l.foldl (nodeSpecApply g) s = s := by
  induction l with
  | nil => rfl
  | cons a t ih =>
    simp only [List.foldl_cons]
    have hstep : nodeSpecApply g s a = s := by
      unfold nodeSpecApply
      split
      · exact mergeNode_stable _ _ _ (h a (by simp) _ (by assumption))
      · rfl
    rw [hstep]
    exact ih (fun e he pv hpv => h e (List.mem_cons_of_mem _ he) pv hpv)

/-! Fold-level lemmas for edge phases. -/

theorem edgeSpecApply_nodes (f : α → Option ((GNode → Bool) × (GNode → Bool) × String))
    (s : GraphState) (r : α) : (edgeSpecApply f s r).nodes = s.nodes := by
  unfold edgeSpecApply
  split
  · exact mergeEdges_nodes _ _ _ _
  · rfl

theorem edgeFold_nodes (f : α → Option ((GNode → Bool) × (GNode → Bool) × String))
    (l : List α) (s : GraphState) : (l.foldl (edgeSpecApply f) s).nodes = s.nodes := by
  induction l generalizing s with
  | nil => rfl
  | cons a t ih =>
    simp only [List.foldl_cons]
    rw [ih, edgeSpecApply_nodes]

theorem edgeFold_edges_mono (f : α → Option ((GNode → Bool) × (GNode → Bool) × String))
    (l : List α) (s : GraphState) (x : GEdge) (h : x ∈ s.edges) :
    x ∈ (l.foldl (edgeSpecApply f) s).edges := by
  induction l generalizing s with
  | nil => exact h
  | cons a t ih =>
    simp only [List.foldl_cons]
    refine ih _ ?_
    unfold edgeSpecApply
    split
    · exact mergeEdges_edges_mono _ _ _ _ _ h
    · exact h

theorem edgeFold_ensures (f : α → Option ((GNode → Bool) × (GNode → Bool) × String))
    (r : α) (pr : (GNode → Bool) × (GNode → Bool) × String) (hpr : f r = some pr)
    (x : GEdge) :
    ∀ (l : List α) (s : GraphState), r ∈ l →
      x ∈ requiredEdges pr.1 pr.2.1 pr.2.2 s.nodes →
      x ∈ (l.foldl (edgeSpecApply f) s).edges := by
  intro l
  induction l with
  | nil => intro s hr _; cases hr
  | cons a t ih =>
    intro s hr hx
    simp only [List.foldl_cons]
    rcases List.mem_cons.mp hr with rfl | hr'
    · refine edgeFold_edges_mono _ _ _ _ ?_
      unfold edgeSpecApply
      rw [hpr]
      exact mergeEdges_ensures _ _ _ _ _ hx
    · refine ih _ hr' ?_
      rw [edgeSpecApply_nodes]
      exact hx

theorem edgeFold_stable (f : α → Option ((GNode → Bool) × (GNode → Bool) × String))
    (l : List α) (s : GraphState)
    (h : ∀ r ∈ l, ∀ pr, f r = some pr →
      ∀ x ∈ requiredEdges pr.1 pr.2.1 pr.2.2 s.nodes, x ∈ s.edges) :
    l.foldl (edgeSpecApply f) s = s := by
  induction l with
  | nil => rfl
  | cons a t ih =>
    simp only [List.foldl_cons]
    have hstep : edgeSpecApply f s a = s := by
      unfold edgeSpecApply
      split
      · exact mergeEdges_stable _ _ _ _ (h a (by simp) _ (by assumption))
      · rfl
    rw [hstep]
    exact ih (fun r hr pr hpr => h r (List.mem_cons_of_mem _ hr) pr hpr)

/-! The loader in spec form, and the convergence theorem. -/

theorem fileFold_eq (entities : List LEntity) (s : GraphState) :
    entities.foldl fileNodeStep s = entities.foldl (nodeSpecApply fileSpec) s := by
  induction entities generalizing s with
  | nil => rfl
  | cons a t ih => simp only [List.foldl_cons, fileNodeStep_eq]; exact ih _

theorem entityFold_eq (entities : List LEntity) (s : GraphState) :
    entities.foldl entityNodeStep s = entities.foldl (nodeSpecApply entitySpec) s := by
  induction entities generalizing s with
  | nil => rfl
  | cons a t ih => simp only [List.foldl_cons, entityNodeStep_eq]; exact ih _

theorem relFold_eq (entities : List LEntity) (l : List LRel) (s : GraphState) :
    l.foldl (relStep entities) s = l.foldl (edgeSpecApply (relSpec entities)) s := by
  induction l generalizing s with
  | nil => rfl
  | cons a t ih => simp only [List.foldl_cons, relStep_eq]; exact ih _

theorem callFold_eq (l : List LRel) (s : GraphState) :
    l.foldl callStep s = l.foldl (edgeSpecApply callSpec) s := by
  induction l generalizing s with
  | nil => rfl
  | cons a t ih => simp only [List.foldl_cons, callStep_eq]; exact ih _

theorem create_nodes_and_relationships_eq (E : List LEntity) (R C : List LRel)
    (s : GraphState) :
    create_nodes_and_relationships E R C s =
      C.foldl (edgeSpecApply callSpec)
        (R.foldl (edgeSpecApply (relSpec E))
          (E.foldl (nodeSpecApply entitySpec)
            (E.foldl (nodeSpecApply fileSpec) s))) := by
  simp only [create_nodes_and_relationships, create_file_nodes]
  rw [fileFold_eq, entityFold_eq, relFold_eq, callFold_eq]

/-- Re-running `create_nodes_and_relationships` on the same bundle leaves
the graph state unchanged: every node `MERGE` and edge `MERGE` of the
second run matches what the first run left behind. -/
theorem create_nodes_and_relationships_idempotent (E : List LEntity) (R C : List LRel)
    (s : GraphState) :
    create_nodes_and_relationships E R C (create_nodes_and_relationships E R C s) =
      create_nodes_and_relationships E R C s := by
  rw [create_nodes_and_relationships_eq E R C s,
      create_nodes_and_relationships_eq E R C]
  set n0 := E.foldl (nodeSpecApply fileSpec) s with hn0
  set n1 := E.foldl (nodeSpecApply entitySpec) n0 with hn1
  set t2 := R.foldl (edgeSpecApply (relSpec E)) n1 with ht2
  set t3 := C.foldl (edgeSpecApply callSpec) t2 with ht3
  have hnodes2 : t2.nodes = n1.nodes := edgeFold_nodes _ _ _
  have hnodes3 : t3.nodes = n1.nodes := by rw [ht3, edgeFold_nodes, hnodes2]
  -- second run, file-node phase: every pattern already has a match
  have hfile : E.foldl (nodeSpecApply fileSpec) t3 = t3 := by
    refine nodeFold_stable _ _ _ ?_
    intro e he pv hpv
    rw [hnodes3, hn1]
    exact nodeFold_any_mono _ _ _ _ (nodeFold_ensures _ fileSpec_sound _ _ hpv _ _ he)
  -- second run, entity-node phase
  have hent : E.foldl (nodeSpecApply entitySpec) t3 = t3 := by
    refine nodeFold_stable _ _ _ ?_
    intro e he pv hpv
    rw [hnodes3, hn1]
    exact nodeFold_ensures _ entitySpec_sound _ _ hpv _ _ he
  -- second run, relationship phase
  have hrel : R.foldl (edgeSpecApply (relSpec E)) t3 = t3 := by
    refine edgeFold_stable _ _ _ ?_
    intro r hr pr hpr x hx
    rw [hnodes3] at hx
    exact edgeFold_edges_mono _ _ _ _ (edgeFold_ensures _ _ _ hpr _ _ _ hr hx)
  -- second run, calls phase
  have hcall : C.foldl (edgeSpecApply callSpec) t3 = t3 := by
    refine edgeFold_stable _ _ _ ?_
    intro r hr pr hpr x hx
    rw [hnodes3, ← hnodes2] at hx
    exact edgeFold_ensures _ _ _ hpr _ _ _ hr hx
  rw [hfile, hent, hrel, hcall]

end Loader

namespace CodeKG

/-! Expression visits only append call records and semantic API
relationships. -/

theorem CRAdded_refl (s : AState) : CRAdded s s :=
  ⟨[], [], by simp, by simp⟩

theorem CRAdded_trans {s t u : AState} (h1 : CRAdded s t) (h2 : CRAdded t u) :
    CRAdded s u := by
  obtain ⟨cs1, rs1, rfl, htag1⟩ := h1
  obtain ⟨cs2, rs2, rfl, htag2⟩ := h2
  refine ⟨cs1 ++ cs2, rs1 ++ rs2, by simp, ?_⟩
  intro x hx
  rcases List.mem_append.mp hx with h | h
  · exact htag1 x h
  · exact htag2 x h

theorem callHead_CR (s : AState) (f : Expr) : CRAdded s (callHead s f) := by
  unfold callHead
  cases hcf : s.current_function with
  | none => exact CRAdded_refl s
  | some cf =>
    cases f with
    | name id => exact ⟨[(.vstr cf, "CALLS", .vstr id)], [], by simp [hcf], by simp⟩
    | attr v m =>
      cases v with
      | name obj =>
        dsimp only
        split
        · exact ⟨[(.vstr cf, "CALLS", .vstr m)],
            [(.vstr cf, "USES_INPUT", .vstr (obj ++ "." ++ m))], by simp [hcf], by simp⟩
        · split
          · exact ⟨[(.vstr cf, "CALLS", .vstr m)],
              [(.vstr cf, "MAKES_REQUEST", .vstr m)], by simp [hcf], by simp⟩
          · exact ⟨[(.vstr cf, "CALLS", .vstr m)], [], by simp [hcf], by simp⟩
      | constant w => exact CRAdded_refl s
      | attr w a => exact CRAdded_refl s
      | call g as ks => exact CRAdded_refl s
      | dict ks vs => exact CRAdded_refl s
      | listLit es => exact CRAdded_refl s
    | constant w => exact CRAdded_refl s
    | call g as ks => exact CRAdded_refl s
    | dict ks vs => exact CRAdded_refl s
    | listLit es => exact CRAdded_refl s

mutual

theorem visitExpr_CR (e : Expr) : ∀ s, CRAdded s (visitExpr s e) := by
  cases e with
  | constant v => intro s; simp only [visitExpr]; exact CRAdded_refl s
  | name id => intro s; simp only [visitExpr]; exact CRAdded_refl s
  | attr v a => intro s; simp only [visitExpr]; exact visitExpr_CR v s
  | call f args kws =>
      intro s
      simp only [visitExpr]
      exact CRAdded_trans (CRAdded_trans (CRAdded_trans (callHead_CR s f)
        (visitExpr_CR f _)) (visitExprs_CR args _)) (visitKws_CR kws _)
  | dict keys values =>
      intro s
      simp only [visitExpr]
      exact CRAdded_trans (visitOptExprs_CR keys s) (visitExprs_CR values _)
  | listLit elts => intro s; simp only [visitExpr]; exact visitExprs_CR elts s
termination_by sizeOf e

theorem visitExprs_CR (l : List Expr) : ∀ s, CRAdded s (visitExprs s l) := by
  cases l with
  | nil => intro s; simp only [visitExprs]; exact CRAdded_refl s
  | cons e rest =>
      intro s
      simp only [visitExprs]
      exact CRAdded_trans (visitExpr_CR e s) (visitExprs_CR rest _)
termination_by sizeOf l

theorem visitOptExprs_CR (l : List (Option Expr)) : ∀ s, CRAdded s (visitOptExprs s l) := by
  cases l with
  | nil => intro s; simp only [visitOptExprs]; exact CRAdded_refl s
  | cons k rest =>
      cases k with
      | none => intro s; simp only [visitOptExprs]; exact visitOptExprs_CR rest s
      | some e =>
          intro s
          simp only [visitOptExprs]
          exact CRAdded_trans (visitExpr_CR e s) (visitOptExprs_CR rest _)
termination_by sizeOf l

theorem visitKws_CR (l : List (Option String × Expr)) : ∀ s, CRAdded s (visitKws s l) := by
  cases l with
  | nil => intro s; simp only [visitKws]; exact CRAdded_refl s
  | cons kw rest =>
      obtain ⟨k, v⟩ := kw
      intro s
      simp only [visitKws]
      exact CRAdded_trans (visitExpr_CR v s) (visitKws_CR rest _)
termination_by sizeOf l

end

theorem CRAdded_entities {s t : AState} (h : CRAdded s t) : t.entities = s.entities := by
  obtain ⟨cs, rs, rfl, -⟩ := h; rfl

theorem CRAdded_cc {s t : AState} (h : CRAdded s t) : t.current_class = s.current_class := by
  obtain ⟨cs, rs, rfl, -⟩ := h; rfl

theorem CRAdded_cf {s t : AState} (h : CRAdded s t) :
    t.current_function = s.current_function := by
  obtain ⟨cs, rs, rfl, -⟩ := h; rfl

theorem CRAdded_filename {s t : AState} (h : CRAdded s t) : t.filename = s.filename := by
  obtain ⟨cs, rs, rfl, -⟩ := h; rfl

theorem CRAdded_rels {s t : AState} (h : CRAdded s t) :
    ∃ rs, t.relationships = s.relationships ++ rs ∧
      ∀ x ∈ rs, x.2.1 = "USES_INPUT" ∨ x.2.1 = "MAKES_REQUEST" := by
  obtain ⟨cs, rs, rfl, htag⟩ := h
  exact ⟨rs, rfl, htag⟩

theorem CRAdded_StmtAdds {s t : AState} (h : CRAdded s t) : StmtAdds s t := by
  obtain ⟨cs, rs, rfl, -⟩ := h
  exact ⟨rfl, rfl, rfl, ⟨[], by simp, fun _ x hx => absurd hx (List.not_mem_nil x)⟩,
    ⟨rs, rfl⟩⟩

end CodeKG

namespace CodeKG

/-! Statement visits restore the scope slots and only append entities and
relationships; while a class scope is open no `Function` entity is ever
appended. -/

theorem StmtAdds_refl (s : AState) : StmtAdds s s :=
  ⟨rfl, rfl, rfl, ⟨[], by simp, fun _ x hx => absurd hx (List.not_mem_nil x)⟩, ⟨[], by simp⟩⟩

theorem StmtAdds_trans {s t u : AState} (h1 : StmtAdds s t) (h2 : StmtAdds t u) :
    StmtAdds s u := by
  obtain ⟨hf1, hc1, hg1, ⟨es1, he1, hk1⟩, ⟨rs1, hr1⟩⟩ := h1
  obtain ⟨hf2, hc2, hg2, ⟨es2, he2, hk2⟩, ⟨rs2, hr2⟩⟩ := h2
  refine ⟨hf2.trans hf1, hc2.trans hc1, hg2.trans hg1,
    ⟨es1 ++ es2, by rw [he2, he1, List.append_assoc], ?_⟩,
    ⟨rs1 ++ rs2, by rw [hr2, hr1, List.append_assoc]⟩⟩
  intro hs x hx
  rcases List.mem_append.mp hx with h | h
  · exact hk1 hs x h
  · exact hk2 (by rw [hc1]; exact hs) x h

theorem StmtAdds_of_append (s : AState) (es : List Entity) (rs : List Triple)
    (hk : ∀ x ∈ es, x.1 ≠ "Function") :
    StmtAdds s { s with entities := s.entities ++ es, relationships := s.relationships ++ rs } :=
  ⟨rfl, rfl, rfl, ⟨es, rfl, fun _ => hk⟩, ⟨rs, rfl⟩⟩

theorem foldl_adds {α : Type} (step : AState → α → AState)
    (hstep : ∀ s x, StmtAdds s (step s x)) :
    ∀ (l : List α) (s : AState), StmtAdds s (l.foldl step s) := by
  intro l
  induction l with
  | nil => intro s; exact StmtAdds_refl s
  | cons a t ih =>
      intro s
      simp only [List.foldl_cons]
      exact StmtAdds_trans (hstep s a) (ih _)

theorem importStep_adds (fname : String) (s : AState) (nm : String) :
    StmtAdds s (importStep fname s nm) :=
  StmtAdds_of_append _ _ _ (by simp)

theorem importFromAliasStep_adds (fname m : String) (s : AState) (nm : String) :
    StmtAdds s (importFromAliasStep fname m s nm) :=
  StmtAdds_of_append _ _ _ (by simp)

theorem baseStep_adds (cname fname : String) (s : AState) (b : Expr) :
    StmtAdds s (baseStep cname fname s b) := by
  cases b with
  | name id => exact StmtAdds_of_append _ _ _ (by simp)
  | constant v => exact StmtAdds_refl s
  | attr v a => exact StmtAdds_refl s
  | call f as ks => exact StmtAdds_refl s
  | dict ks vs => exact StmtAdds_refl s
  | listLit es => exact StmtAdds_refl s

theorem paramStep_adds (fname : String) (s : AState) (arg : String) :
    StmtAdds s (paramStep fname s arg) := by
  unfold paramStep
  split
  · exact StmtAdds_of_append _ _ _ (by simp)
  · exact StmtAdds_refl s

theorem methodEltStep_adds (route : PyVal) (s : AState) (e : Expr) :
    StmtAdds s (methodEltStep route s e) := by
  cases e with
  | constant m => exact StmtAdds_of_append _ _ _ (by simp)
  | name id => exact StmtAdds_refl s
  | attr v a => exact StmtAdds_refl s
  | call f as ks => exact StmtAdds_refl s
  | dict ks vs => exact StmtAdds_refl s
  | listLit es => exact StmtAdds_refl s

theorem methodsKwStep_adds (route : PyVal) (s : AState) (kw : Option String × Expr) :
    StmtAdds s (methodsKwStep route s kw) := by
  unfold methodsKwStep
  split
  · split
    · exact foldl_adds _ (methodEltStep_adds route) _ s
    · exact StmtAdds_refl s
  · exact StmtAdds_refl s

theorem decoratorRoute_adds (fname : String) (s : AState) (d : Expr) :
    StmtAdds s (decoratorRoute fname s d) := by
  unfold decoratorRoute
  split
  · split
    · split
      · refine StmtAdds_trans ?_ (foldl_adds _ (methodsKwStep_adds _) _ _)
        exact ⟨rfl, rfl, rfl, ⟨[_], rfl, by simp⟩, ⟨[_], rfl⟩⟩
      · exact StmtAdds_refl s
    · exact StmtAdds_refl s
  · exact StmtAdds_refl s

theorem decoratorNamed_adds (fname : String) (s : AState) (d : Expr) :
    StmtAdds s (decoratorNamed fname s d) := by
  cases d with
  | name id =>
      exact ⟨rfl, rfl, rfl,
        ⟨[], by simp [decoratorNamed], fun _ x hx => absurd hx (List.not_mem_nil x)⟩,
        ⟨[(.vstr fname, "DECORATED_BY", .vstr id)], rfl⟩⟩
  | attr v a =>
      exact ⟨rfl, rfl, rfl,
        ⟨[], by simp [decoratorNamed], fun _ x hx => absurd hx (List.not_mem_nil x)⟩,
        ⟨[(.vstr fname, "DECORATED_BY", .vstr a)], rfl⟩⟩
  | constant v => exact StmtAdds_refl s
  | call f as ks => exact StmtAdds_refl s
  | dict ks vs => exact StmtAdds_refl s
  | listLit es => exact StmtAdds_refl s

theorem decoratorStep_adds (fname : String) (s : AState) (d : Expr) :
    StmtAdds s (decoratorStep fname s d) :=
  StmtAdds_trans (decoratorRoute_adds fname s d) (decoratorNamed_adds fname _ d)

theorem funcClassify_adds (s : AState) (name : String) :
    StmtAdds s (funcClassify s name) := by
  unfold funcClassify
  cases hc : s.current_class with
  | some c =>
      exact ⟨rfl, by rw [hc], rfl, ⟨[("Method", .vstr name, .vstr c)], rfl, by simp⟩,
        ⟨[(.vstr c, "DEFINES", .vstr name)], rfl⟩⟩
  | none =>
      refine ⟨rfl, by rw [hc], rfl,
        ⟨[("Function", .vstr name, .vstr s.filename)], rfl, ?_⟩,
        ⟨[(.vstr s.filename, "CONTAINS", .vstr name)], rfl⟩⟩
      intro hs
      rw [hc] at hs
      cases hs

theorem returnHead_adds (s : AState) (value : Option Expr) :
    StmtAdds s (returnHead s value) := by
  unfold returnHead
  cases hcf : s.current_function with
  | none => exact StmtAdds_refl s
  | some cf =>
      cases value with
      | none => exact StmtAdds_refl s
      | some v =>
          cases v with
          | dict keys vs =>
              dsimp only
              split
              · exact ⟨rfl, rfl, by rw [hcf],
                  ⟨[], by simp, fun _ x hx => absurd hx (List.not_mem_nil x)⟩,
                  ⟨[(.vstr cf, "RETURNS_FIELDS", .vstr (pyStrOfList (dictConstKeys keys)))], rfl⟩⟩
              · exact StmtAdds_refl s
          | call f as ks =>
              cases f with
              | name fn =>
                  exact ⟨rfl, rfl, by rw [hcf],
                    ⟨[], by simp, fun _ x hx => absurd hx (List.not_mem_nil x)⟩,
                    ⟨[(.vstr cf, "RETURNS_FROM", .vstr fn)], rfl⟩⟩
              | constant w => exact StmtAdds_refl s
              | attr w a => exact StmtAdds_refl s
              | call g bs cs => exact StmtAdds_refl s
              | dict ks2 vs2 => exact StmtAdds_refl s
              | listLit es => exact StmtAdds_refl s
          | constant w => exact StmtAdds_refl s
          | name id => exact StmtAdds_refl s
          | attr w a => exact StmtAdds_refl s
          | listLit es => exact StmtAdds_refl s

theorem assignTargetStep_adds (acc : AState × List String) (t : Expr) :
    StmtAdds acc.1 (assignTargetStep acc t).1 := by
  cases t with
  | name id =>
      unfold assignTargetStep
      dsimp only
      cases hcf : acc.1.current_function with
      | some cf =>
          exact ⟨rfl, rfl, by rw [hcf], ⟨[("Variable", .vstr id, .vstr cf)], rfl, by simp⟩,
            ⟨[(.vstr cf, "DEFINES_VAR", .vstr id)], rfl⟩⟩
      | none =>
          exact ⟨rfl, rfl, by rw [hcf], ⟨[], by simp, fun _ x hx => absurd hx (List.not_mem_nil x)⟩,
            ⟨[], by simp⟩⟩
  | constant v => exact StmtAdds_refl _
  | attr v a => exact StmtAdds_refl _
  | call f as ks => exact StmtAdds_refl _
  | dict ks vs => exact StmtAdds_refl _
  | listLit es => exact StmtAdds_refl _

theorem assignTargetsFold_adds (targets : List Expr) :
    ∀ (acc : AState × List String), StmtAdds acc.1 ((targets.foldl assignTargetStep acc).1) := by
  induction targets with
  | nil => intro acc; exact StmtAdds_refl _
  | cons a t ih =>
      intro acc
      simp only [List.foldl_cons]
      exact StmtAdds_trans (assignTargetStep_adds acc a) (ih _)

theorem assignTargets_adds (s : AState) (targets : List Expr) :
    StmtAdds s (assignTargets s targets).1 :=
  assignTargetsFold_adds targets (s, [])

theorem dataFlowStep_adds (s : AState) (value : Expr) (tgts : List String) :
    StmtAdds s (dataFlowStep s value tgts) := by
  unfold dataFlowStep
  cases value with
  | constant v =>
      exact foldl_adds
        (fun acc t => { acc with
          data_flows := acc.data_flows ++ [(.vstr v.pstr, "FLOW_TO", .vstr t)] })
        (fun s' t =>
          ⟨rfl, rfl, rfl, ⟨[], by simp, fun _ x hx => absurd hx (List.not_mem_nil x)⟩,
           ⟨[], by simp⟩⟩) tgts s
  | name src =>
      exact foldl_adds
        (fun acc t => { acc with
          data_flows := acc.data_flows ++ [(.vstr src, "FLOW_TO", .vstr t)] })
        (fun s' t =>
          ⟨rfl, rfl, rfl, ⟨[], by simp, fun _ x hx => absurd hx (List.not_mem_nil x)⟩,
           ⟨[], by simp⟩⟩) tgts s
  | attr v a => exact StmtAdds_refl _
  | call f as ks => exact StmtAdds_refl _
  | dict ks vs => exact StmtAdds_refl _
  | listLit es => exact StmtAdds_refl _

end CodeKG

namespace CodeKG

theorem StmtAdds_restoreCC {s smid t : AState} (name : String) (h0 : StmtAdds s smid)
    (h : StmtAdds { smid with current_class := some name } t) :
    StmtAdds s { t with current_class := smid.current_class } := by
  obtain ⟨hf0, hc0, hg0, ⟨es0, he0, hk0⟩, ⟨rs0, hr0⟩⟩ := h0
  obtain ⟨hf1, hc1, hg1, ⟨es1, he1, hk1⟩, ⟨rs1, hr1⟩⟩ := h
  refine ⟨hf1.trans hf0, hc0, hg1.trans hg0, ⟨es0 ++ es1, ?_, ?_⟩, ⟨rs0 ++ rs1, ?_⟩⟩
  · show t.entities = s.entities ++ (es0 ++ es1)
    rw [show t.entities = smid.entities ++ es1 from he1, show smid.entities = s.entities ++ es0 from he0,
      List.append_assoc]
  · intro hs x hx
    rcases List.mem_append.mp hx with hm | hm
    · exact hk0 hs x hm
    · exact hk1 rfl x hm
  · show t.relationships = s.relationships ++ (rs0 ++ rs1)
    rw [show t.relationships = smid.relationships ++ rs1 from hr1,
      show smid.relationships = s.relationships ++ rs0 from hr0, List.append_assoc]

theorem StmtAdds_restoreCF {s smid t : AState} (name : String) (h0 : StmtAdds s smid)
    (h : StmtAdds { smid with current_function := some name } t) :
    StmtAdds s { t with current_function := s.current_function } := by
  obtain ⟨hf0, hc0, hg0, ⟨es0, he0, hk0⟩, ⟨rs0, hr0⟩⟩ := h0
  obtain ⟨hf1, hc1, hg1, ⟨es1, he1, hk1⟩, ⟨rs1, hr1⟩⟩ := h
  refine ⟨hf1.trans hf0, hc1.trans hc0, rfl, ⟨es0 ++ es1, ?_, ?_⟩, ⟨rs0 ++ rs1, ?_⟩⟩
  · show t.entities = s.entities ++ (es0 ++ es1)
    rw [show t.entities = smid.entities ++ es1 from he1, show smid.entities = s.entities ++ es0 from he0,
      List.append_assoc]
  · intro hs x hx
    rcases List.mem_append.mp hx with hm | hm
    · exact hk0 hs x hm
    · refine hk1 ?_ x hm
      show smid.current_class.isSome = true
      rw [hc0]
      exact hs
  · show t.relationships = s.relationships ++ (rs0 ++ rs1)
    rw [show t.relationships = smid.relationships ++ rs1 from hr1,
      show smid.relationships = s.relationships ++ rs0 from hr0, List.append_assoc]

mutual

theorem visitStmt_adds (t : Stmt) : ∀ s, StmtAdds s (visitStmt s t) := by
  cases t with
  | import_ names =>
      intro s
      simp only [visitStmt]
      exact foldl_adds _ (importStep_adds s.filename) names s
  | importFrom module names =>
      cases module with
      | none => intro s; simp only [visitStmt]; exact StmtAdds_refl s
      | some m =>
          intro s
          simp only [visitStmt]
          refine StmtAdds_trans ?_ (foldl_adds _ (importFromAliasStep_adds s.filename m) names _)
          exact StmtAdds_of_append _ _ _ (by simp)
  | classDef name bases body decs =>
      intro s
      simp only [visitStmt]
      exact StmtAdds_restoreCC name
        (StmtAdds_trans (StmtAdds_of_append _ _ _ (by simp))
          (foldl_adds _ (baseStep_adds name s.filename) bases _))
        (StmtAdds_trans (CRAdded_StmtAdds (visitExprs_CR bases _))
          (StmtAdds_trans (visitStmts_adds body _) (CRAdded_StmtAdds (visitExprs_CR decs _))))
  | functionDef name args body decs =>
      intro s
      simp only [visitStmt]
      exact StmtAdds_restoreCF name (StmtAdds_refl s)
        (StmtAdds_trans (funcClassify_adds _ name)
          (StmtAdds_trans (foldl_adds _ (paramStep_adds name) args _)
            (StmtAdds_trans (foldl_adds _ (decoratorStep_adds name) decs _)
              (StmtAdds_trans (visitStmts_adds body _)
                (CRAdded_StmtAdds (visitExprs_CR decs _))))))
  | assign targets value =>
      intro s
      simp only [visitStmt]
      exact StmtAdds_trans (assignTargets_adds s targets)
        (StmtAdds_trans (dataFlowStep_adds _ value _)
          (StmtAdds_trans (CRAdded_StmtAdds (visitExprs_CR targets _))
            (CRAdded_StmtAdds (visitExpr_CR value _))))
  | ret value =>
      cases value with
      | none => intro s; simp only [visitStmt]; exact returnHead_adds s none
      | some v =>
          intro s
          simp only [visitStmt]
          exact StmtAdds_trans (returnHead_adds s (some v))
            (CRAdded_StmtAdds (visitExpr_CR v _))
  | exprStmt v =>
      intro s
      simp only [visitStmt]
      exact CRAdded_StmtAdds (visitExpr_CR v s)
  | pass_ => intro s; simp only [visitStmt]; exact StmtAdds_refl s
termination_by sizeOf t

theorem visitStmts_adds (l : List Stmt) : ∀ s, StmtAdds s (visitStmts s l) := by
  cases l with
  | nil => intro s; simp only [visitStmts]; exact StmtAdds_refl s
  | cons t rest =>
      intro s
      simp only [visitStmts]
      exact StmtAdds_trans (visitStmt_adds t s) (visitStmts_adds rest _)
termination_by sizeOf l

end

end CodeKG

namespace CodeKG

/-! Explicit characterisations used by the endpoint/parameter claims. -/

theorem paramFold_spec (fname : String) (args : List String) :
    ∀ s : AState, args.foldl (paramStep fname) s =
      { s with entities := s.entities ++ paramsEnts fname args,
               relationships := s.relationships ++ paramsRels fname args } := by
  induction args with
  | nil => intro s; simp [paramsEnts, paramsRels]
  | cons a t ih =>
      intro s
      simp only [List.foldl_cons]
      rw [ih]
      unfold paramStep
      split
      · rename_i hpos
        simp [paramsEnts, paramsRels, List.filter_cons, hpos, List.append_assoc]
      · rename_i hneg
        simp only [Bool.not_eq_true] at hneg
        simp [paramsEnts, paramsRels, List.filter_cons, hneg]

theorem funcClassify_some (s : AState) (n c : String) (h : s.current_class = some c) :
    funcClassify s n =
      { s with entities := s.entities ++ [("Method", .vstr n, .vstr c)],
               relationships := s.relationships ++ [(.vstr c, "DEFINES", .vstr n)] } := by
  unfold funcClassify
  rw [h]

theorem funcClassify_none (s : AState) (n : String) (h : s.current_class = none) :
    funcClassify s n =
      { s with entities := s.entities ++ [("Function", .vstr n, .vstr s.filename)],
               relationships := s.relationships ++ [(.vstr s.filename, "CONTAINS", .vstr n)] } := by
  unfold funcClassify
  rw [h]

/-! Aggregation lemmas. -/

theorem bundleAppend_empty (a : Bundle) : bundleAppend a emptyBundle = a := by
  simp [bundleAppend, emptyBundle]

theorem foldl_bundleAppend_mem {β : Type} (proj : Bundle → List β)
    (hproj : ∀ a b, proj (bundleAppend a b) = proj a ++ proj b)
    (l : List SrcFile) :
    ∀ (b : Bundle) (x : β),
      x ∈ proj (l.foldl (fun acc f => bundleAppend acc (extract_from_file f)) b) ↔
        x ∈ proj b ∨ ∃ f ∈ l, x ∈ proj (extract_from_file f) := by
  induction l with
  | nil => intro b x; simp
  | cons a t ih =>
      intro b x
      simp only [List.foldl_cons]
      rw [ih]
      rw [hproj]
      simp only [List.mem_append, List.mem_cons]
      constructor
      · rintro ((h | h) | ⟨f, hf, hx⟩)
        · exact Or.inl h
        · exact Or.inr ⟨a, Or.inl rfl, h⟩
        · exact Or.inr ⟨f, Or.inr hf, hx⟩
      · rintro (h | ⟨f, (rfl | hf), hx⟩)
        · exact Or.inl (Or.inl h)
        · exact Or.inl (Or.inr hx)
        · exact Or.inr ⟨f, hf, hx⟩

theorem extract_mem_entities (files : List SrcFile) (x : Entity) :
    x ∈ (extract_from_repo files).entities ↔
      ∃ f ∈ files, f.path.endsWith ".py" = true ∧ x ∈ (extract_from_file f).entities := by
  unfold extract_from_repo
  simp only [List.mem_dedup]
  rw [foldl_bundleAppend_mem (fun b => b.entities) (fun a b => rfl)]
  simp only [emptyBundle, List.not_mem_nil, false_or, List.mem_filter]
  constructor
  · rintro ⟨f, ⟨hf, hpy⟩, hx⟩
    exact ⟨f, hf, hpy, hx⟩
  · rintro ⟨f, hf, hpy, hx⟩
    exact ⟨f, ⟨hf, hpy⟩, hx⟩

theorem extract_mem_relationships (files : List SrcFile) (x : Triple) :
    x ∈ (extract_from_repo files).relationships ↔
      ∃ f ∈ files, f.path.endsWith ".py" = true ∧ x ∈ (extract_from_file f).relationships := by
  unfold extract_from_repo
  simp only [List.mem_dedup]
  rw [foldl_bundleAppend_mem (fun b => b.relationships) (fun a b => rfl)]
  simp only [emptyBundle, List.not_mem_nil, false_or, List.mem_filter]
  constructor
  · rintro ⟨f, ⟨hf, hpy⟩, hx⟩
    exact ⟨f, hf, hpy, hx⟩
  · rintro ⟨f, hf, hpy, hx⟩
    exact ⟨f, ⟨hf, hpy⟩, hx⟩

end CodeKG

namespace Loader

/-- C1 counterexample: for the bundle containing entities for both `greet`
and its parameter `name` and the relationship `(greet, ACCEPTS, name)`, the
loader creates both endpoint nodes but issues no edge statement at all for
the `ACCEPTS` tuple — the persisted edge set is empty, so no untyped
name-match edge-upsert is performed for relationship kinds other than
CONTAINS/IMPORTS/DEFINES. -/
theorem c1_skipped_relation_counterexample :
    (Loader.create_nodes_and_relationships
      [("Function", "greet", "app/a.py"), ("Parameter", "name", "greet")]
      [("greet", "ACCEPTS", "name")] [] ⟨[], []⟩).nodes =
      [⟨"File", "app/a.py", none⟩, ⟨"Function", "greet", some "app/a.py"⟩,
       ⟨"Parameter", "name", some "greet"⟩] ∧
    (Loader.create_nodes_and_relationships
      [("Function", "greet", "app/a.py"), ("Parameter", "name", "greet")]
      [("greet", "ACCEPTS", "name")] [] ⟨[], []⟩).edges = [] := by
  constructor
  · decide
  · decide

/-- C1 (amended): for every relationship tuple whose relation kind is not
CONTAINS, IMPORTS or DEFINES, the loader leaves the graph state untouched:
no edge-upsert of any kind is issued (the relationship kind is silently
omitted from loading). -/
theorem c1_skipped_relation (E : List LEntity) (s : GraphState) (src rel tgt : String)
    (h1 : rel ≠ "CONTAINS") (h2 : rel ≠ "IMPORTS") (h3 : rel ≠ "DEFINES") :
    relStep E s (src, rel, tgt) = s := by
  unfold relStep
  simp [h1, h2, h3]

theorem c1_skipped_relation_witness :
    relStep [("Function", "greet", "app/a.py")] ⟨[], []⟩ ("greet", "ACCEPTS", "name") =
      (⟨[], []⟩ : GraphState) :=
  c1_skipped_relation [("Function", "greet", "app/a.py")] ⟨[], []⟩ "greet" "ACCEPTS" "name"
    (by decide) (by decide) (by decide)

/-- C3: running `create_nodes_and_relationships` a second time on the same
bundle leaves the persisted graph state unchanged, and in particular the
node and edge counts after the second run equal those after the first. -/
theorem c3_loader_idempotence (E : List LEntity) (R C : List LRel) (s : GraphState) :
    create_nodes_and_relationships E R C (create_nodes_and_relationships E R C s) =
      create_nodes_and_relationships E R C s ∧
    (create_nodes_and_relationships E R C
        (create_nodes_and_relationships E R C s)).nodes.length =
      (create_nodes_and_relationships E R C s).nodes.length ∧
    (create_nodes_and_relationships E R C
        (create_nodes_and_relationships E R C s)).edges.length =
      (create_nodes_and_relationships E R C s).edges.length := by
  have h := create_nodes_and_relationships_idempotent E R C s
  exact ⟨h, by rw [h], by rw [h]⟩

end Loader

namespace CodeKG

/-- C2 counterexample: for a function whose body issues `requests.get(url)`,
the walker records the `MAKES_REQUEST` relationship with the bare method
name `get` as target, not the qualified string `requests.get`. -/
theorem c2_request_target_counterexample :
    (PyVal.vstr "get_greeting", "MAKES_REQUEST", PyVal.vstr "get") ∈
      (visitStmts (initState "b.py")
        [.functionDef "get_greeting" ["url"]
          [.ret (some (.call (.attr (.name "requests") "get") [.name "url"] []))] []]).relationships ∧
    (PyVal.vstr "get_greeting", "MAKES_REQUEST", PyVal.vstr "requests.get") ∉
      (visitStmts (initState "b.py")
        [.functionDef "get_greeting" ["url"]
          [.ret (some (.call (.attr (.name "requests") "get") [.name "url"] []))] []]).relationships := by
  constructor
  · decide
  · decide

/-- C6: visiting any statement — in particular any class or function
declaration — restores both the current-class and the current-function
context to their values from before the visit, at every nesting depth. -/
theorem c6_scope_restored (t : Stmt) (s : AState) :
    (visitStmt s t).current_class = s.current_class ∧
    (visitStmt s t).current_function = s.current_function :=
  ⟨(visitStmt_adds t s).2.1, (visitStmt_adds t s).2.2.1⟩

/-- C4: a file whose parse raises a syntax error contributes the empty
record bundle, and removing it from the walk leaves the aggregated result
of all the other files unchanged — no failure escapes the repository walk. -/
theorem c4_parse_failure_isolated (l1 l2 : List SrcFile) (p m : String) :
    analyze p (.parseFailure m) = emptyBundle ∧
    extract_from_repo (l1 ++ ⟨p, PyFile.parseFailure m⟩ :: l2) =
      extract_from_repo (l1 ++ l2) := by
  refine ⟨rfl, ?_⟩
  unfold extract_from_repo
  simp only [List.filter_append, List.filter_cons]
  by_cases hp : p.endsWith ".py" = true
  · simp only [hp, if_true]
    rw [List.foldl_append, List.foldl_append, List.foldl_cons]
    rw [show extract_from_file ⟨p, .parseFailure m⟩ = emptyBundle from rfl, bundleAppend_empty]
  · simp [hp]

end CodeKG

namespace CodeKG

theorem CRAdded_rels_mono {s t : AState} (h : CRAdded s t) {x : Triple}
    (hx : x ∈ s.relationships) : x ∈ t.relationships := by
  obtain ⟨rs, heq, -⟩ := CRAdded_rels h
  rw [heq]
  exact List.mem_append_left _ hx

/-- C2 (amended): inside a function, a call whose callee is an attribute
access on a known input-reading object records `USES_INPUT` with the
qualified `object.method` string as target, while a call on a known
outbound-request object records `MAKES_REQUEST` with only the bare method
name as target. -/
theorem c2_request_target (s : AState) (cf obj m : String) (args : List Expr)
    (kws : List (Option String × Expr)) (hcf : s.current_function = some cf) :
    ((obj = "request" ∧ m ∈ (["json", "args", "get"] : List String)) →
      (PyVal.vstr cf, "USES_INPUT", PyVal.vstr (obj ++ "." ++ m)) ∈
        (visitExpr s (.call (.attr (.name obj) m) args kws)).relationships) ∧
    ((obj = "requests" ∧ m ∈ (["get", "post", "put", "delete"] : List String)) →
      (PyVal.vstr cf, "MAKES_REQUEST", PyVal.vstr m) ∈
        (visitExpr s (.call (.attr (.name obj) m) args kws)).relationships) := by
  have hmono : ∀ x ∈ (callHead s (.attr (.name obj) m)).relationships,
      x ∈ (visitExpr s (.call (.attr (.name obj) m) args kws)).relationships := by
    intro x hx
    simp only [visitExpr]
    exact CRAdded_rels_mono (visitKws_CR kws _)
      (CRAdded_rels_mono (visitExprs_CR args _)
        (CRAdded_rels_mono (visitExpr_CR (.attr (.name obj) m) _) hx))
  constructor
  · rintro ⟨rfl, hm⟩
    apply hmono
    unfold callHead
    rw [hcf]
    simp only [List.mem_cons, List.not_mem_nil, or_false] at hm
    rcases hm with rfl | rfl | rfl <;> simp
  · rintro ⟨rfl, hm⟩
    apply hmono
    unfold callHead
    rw [hcf]
    simp only [List.mem_cons, List.not_mem_nil, or_false] at hm
    rcases hm with rfl | rfl | rfl | rfl <;> simp

theorem c2_request_target_witness :
    (PyVal.vstr "f", "USES_INPUT", PyVal.vstr "request.json") ∈
      (visitExpr { initState "x.py" with current_function := some "f" }
        (.call (.attr (.name "request") "json") [] [])).relationships ∧
    (PyVal.vstr "f", "MAKES_REQUEST", PyVal.vstr "post") ∈
      (visitExpr { initState "x.py" with current_function := some "f" }
        (.call (.attr (.name "requests") "post") [] [])).relationships :=
  ⟨(c2_request_target _ "f" "request" "json" [] [] rfl).1 ⟨rfl, by decide⟩,
   (c2_request_target _ "f" "requests" "post" [] [] rfl).2 ⟨rfl, by decide⟩⟩

/-- C9: aggregating an unchanged set of files twice — in any two traversal
orders — yields set-equal entity and relationship bundles. -/
theorem c9_aggregator_deterministic (files1 files2 : List SrcFile)
    (hperm : files1.Perm files2) :
    (∀ x, x ∈ (extract_from_repo files1).entities ↔
      x ∈ (extract_from_repo files2).entities) ∧
    (∀ x, x ∈ (extract_from_repo files1).relationships ↔
      x ∈ (extract_from_repo files2).relationships) := by
  constructor
  · intro x
    rw [extract_mem_entities, extract_mem_entities]
    constructor
    · rintro ⟨f, hf, h1, h2⟩
      exact ⟨f, hperm.mem_iff.mp hf, h1, h2⟩
    · rintro ⟨f, hf, h1, h2⟩
      exact ⟨f, hperm.mem_iff.mpr hf, h1, h2⟩
  · intro x
    rw [extract_mem_relationships, extract_mem_relationships]
    constructor
    · rintro ⟨f, hf, h1, h2⟩
      exact ⟨f, hperm.mem_iff.mp hf, h1, h2⟩
    · rintro ⟨f, hf, h1, h2⟩
      exact ⟨f, hperm.mem_iff.mpr hf, h1, h2⟩

theorem c9_aggregator_deterministic_witness :
    (∀ x, x ∈ (extract_from_repo
        [⟨"a.py", .parsed [.import_ ["os"]] none⟩,
         ⟨"b.py", .parsed [.functionDef "f" ["n"] [] []] none⟩]).entities ↔
      x ∈ (extract_from_repo
        [⟨"b.py", .parsed [.functionDef "f" ["n"] [] []] none⟩,
         ⟨"a.py", .parsed [.import_ ["os"]] none⟩]).entities) ∧
    (∀ x, x ∈ (extract_from_repo
        [⟨"a.py", .parsed [.import_ ["os"]] none⟩,
         ⟨"b.py", .parsed [.functionDef "f" ["n"] [] []] none⟩]).relationships ↔
      x ∈ (extract_from_repo
        [⟨"b.py", .parsed [.functionDef "f" ["n"] [] []] none⟩,
         ⟨"a.py", .parsed [.import_ ["os"]] none⟩]).relationships) :=
  c9_aggregator_deterministic _ _ (List.Perm.swap _ _ _)

/-- C10: a function declaration visited while any class scope is open is
classified as a `Method` of the innermost enclosing class (the current
class slot), with a `DEFINES` relationship from that class, and no
`Function` entity is added by the visit at any nesting depth. -/
theorem c10_nested_method (s : AState) (c fname : String) (args : List String)
    (body : List Stmt) (decs : List Expr) (h : s.current_class = some c) :
    ("Method", PyVal.vstr fname, PyVal.vstr c) ∈
      (visitStmt s (.functionDef fname args body decs)).entities ∧
    (PyVal.vstr c, "DEFINES", PyVal.vstr fname) ∈
      (visitStmt s (.functionDef fname args body decs)).relationships ∧
    (∀ nm sc, ("Function", nm, sc) ∈
        (visitStmt s (.functionDef fname args body decs)).entities →
      ("Function", nm, sc) ∈ s.entities) := by
  obtain ⟨-, -, -, ⟨es, hent, hk⟩, -⟩ := visitStmt_adds (.functionDef fname args body decs) s
  have hks : s.current_class.isSome = true := by rw [h]; rfl
  have hchain := StmtAdds_trans (foldl_adds _ (paramStep_adds fname) args
      (funcClassify { s with current_function := some fname } fname))
    (StmtAdds_trans (foldl_adds _ (decoratorStep_adds fname) decs _)
      (StmtAdds_trans (visitStmts_adds body _) (CRAdded_StmtAdds (visitExprs_CR decs _))))
  obtain ⟨-, -, -, ⟨esx, hex, -⟩, ⟨rsx, hrx⟩⟩ := hchain
  have hcls := funcClassify_some { s with current_function := some fname } fname c h
  refine ⟨?_, ?_, ?_⟩
  · simp only [visitStmt]
    show ("Method", PyVal.vstr fname, PyVal.vstr c) ∈
      (visitExprs (visitStmts (decs.foldl (decoratorStep fname)
        (args.foldl (paramStep fname)
          (funcClassify { s with current_function := some fname } fname))) body) decs).entities
    rw [hex, hcls]
    exact List.mem_append_left _ (by simp)
  · simp only [visitStmt]
    show (PyVal.vstr c, "DEFINES", PyVal.vstr fname) ∈
      (visitExprs (visitStmts (decs.foldl (decoratorStep fname)
        (args.foldl (paramStep fname)
          (funcClassify { s with current_function := some fname } fname))) body) decs).relationships
    rw [hrx, hcls]
    exact List.mem_append_left _ (by simp)
  · intro nm sc hmem
    rw [hent] at hmem
    rcases List.mem_append.mp hmem with h1 | h2
    · exact h1
    · exact absurd rfl (hk hks _ h2)

theorem c10_nested_method_witness :
    ("Method", PyVal.vstr "helper", PyVal.vstr "C") ∈
      (visitStmt { initState "a.py" with current_class := some "C" }
        (.functionDef "helper" [] [] [])).entities :=
  (c10_nested_method _ "C" "helper" [] [] [] rfl).1

end CodeKG

namespace CodeKG

theorem filter_map_nil {α β : Type} (f : α → β) (p : β → Bool) (l : List α)
    (h : ∀ x, p (f x) = false) : (l.map f).filter p = [] := by
  induction l with
  | nil => rfl
  | cons a t ih => simp [List.filter_cons, h a, ih]

theorem filter_map_all {α β : Type} (f : α → β) (p : β → Bool) (l : List α)
    (h : ∀ x, p (f x) = true) : (l.map f).filter p = l.map f := by
  induction l with
  | nil => rfl
  | cons a t ih => simp [List.filter_cons, h a, ih]

theorem filter_tags_nil (rs : List Triple) (k : String)
    (htags : ∀ x ∈ rs, x.2.1 = "USES_INPUT" ∨ x.2.1 = "MAKES_REQUEST")
    (h1 : k ≠ "USES_INPUT") (h2 : k ≠ "MAKES_REQUEST") :
    rs.filter (fun t => t.2.1 == k) = [] := by
  induction rs with
  | nil => rfl
  | cons a t ih =>
      have ha : (a.2.1 == k) = false := by
        rcases htags a (by simp) with hu | hu <;>
          · rw [hu]
            exact beq_eq_false_iff_ne.mpr (fun hh => by simp_all)
      simp only [List.filter_cons, ha]
      exact ih (fun x hx => htags x (List.mem_cons_of_mem _ hx))

end CodeKG

namespace CodeKG

theorem paramsEnts_mem_kind (fname : String) (args : List String) :
    ∀ x ∈ paramsEnts fname args, x.1 = "Parameter" := by
  intro x hx
  unfold paramsEnts at hx
  obtain ⟨a, -, rfl⟩ := List.mem_map.mp hx
  rfl

theorem paramsRels_mem_tag (fname : String) (args : List String) :
    ∀ x ∈ paramsRels fname args, x.2.1 = "ACCEPTS" := by
  intro x hx
  unfold paramsRels at hx
  obtain ⟨a, -, rfl⟩ := List.mem_map.mp hx
  rfl

end CodeKG

namespace CodeKG

theorem paramsEnts_count (fname : String) (args : List String) (a : String) :
    (paramsEnts fname args).count ("Parameter", PyVal.vstr a, PyVal.vstr fname) =
      (args.filter (fun s => s != "self")).count a := by
  unfold paramsEnts
  generalize (args.filter fun s => s != "self") = l
  induction l with
  | nil => rfl
  | cons b t ih =>
      simp only [List.map_cons, List.count_cons, ih]
      by_cases hba : b = a
      · simp [hba]
      · simp [hba]

theorem paramsRels_count (fname : String) (args : List String) (a : String) :
    (paramsRels fname args).count (PyVal.vstr fname, "ACCEPTS", PyVal.vstr a) =
      (args.filter (fun s => s != "self")).count a := by
  unfold paramsRels
  generalize (args.filter fun s => s != "self") = l
  induction l with
  | nil => rfl
  | cons b t ih =>
      simp only [List.map_cons, List.count_cons, ih]
      by_cases hba : b = a
      · simp [hba]
      · simp [hba]

theorem count_filter_ne_self (args : List String) (a : String) (ha : a ≠ "self") :
    (args.filter (fun s => s != "self")).count a = args.count a := by
  induction args with
  | nil => rfl
  | cons b t ih =>
      by_cases hb : (b != "self") = true
      · simp [List.filter_cons, hb, List.count_cons, ih]
      · simp only [Bool.not_eq_true] at hb
        have hbs : b = "self" := by simpa using hb
        simp [List.filter_cons, hb, List.count_cons, ih, hbs, Ne.symm ha]

theorem count_filter_self (args : List String) :
    (args.filter (fun s => s != "self")).count "self" = 0 := by
  rw [List.count_eq_zero]
  intro h
  have := List.of_mem_filter h
  simp at this

/-- C5: a function carrying the single decorator
`obj.route(r, methods=["GET","POST"])` makes the walker emit exactly one
`API_Endpoint` entity scoped to the file, exactly one `EXPOSES`
relationship from the function name to the route string, exactly two
`HTTP_Method` entities scoped to the route string, and exactly two
`SUPPORTS` relationships from the route string to the two verbs. -/
theorem c5_route_decorator (fname obj r file : String) (args : List String) :
    ((visitStmts (initState file)
      [.functionDef fname args []
        [.call (.attr (.name obj) "route") [.constant (.vstr r)]
          [(some "methods", .listLit [.constant (.vstr "GET"), .constant (.vstr "POST")])]]]).entities.filter
        (fun e => e.1 == "API_Endpoint")) =
      [("API_Endpoint", .vstr r, .vstr (normalizePath file))] ∧
    ((visitStmts (initState file)
      [.functionDef fname args []
        [.call (.attr (.name obj) "route") [.constant (.vstr r)]
          [(some "methods", .listLit [.constant (.vstr "GET"), .constant (.vstr "POST")])]]]).relationships.filter
        (fun t => t.2.1 == "EXPOSES")) = [(.vstr fname, "EXPOSES", .vstr r)] ∧
    ((visitStmts (initState file)
      [.functionDef fname args []
        [.call (.attr (.name obj) "route") [.constant (.vstr r)]
          [(some "methods", .listLit [.constant (.vstr "GET"), .constant (.vstr "POST")])]]]).entities.filter
        (fun e => e.1 == "HTTP_Method")) =
      [("HTTP_Method", .vstr "GET", .vstr r), ("HTTP_Method", .vstr "POST", .vstr r)] ∧
    ((visitStmts (initState file)
      [.functionDef fname args []
        [.call (.attr (.name obj) "route") [.constant (.vstr r)]
          [(some "methods", .listLit [.constant (.vstr "GET"), .constant (.vstr "POST")])]]]).relationships.filter
        (fun t => t.2.1 == "SUPPORTS")) =
      [(.vstr r, "SUPPORTS", .vstr "GET"), (.vstr r, "SUPPORTS", .vstr "POST")] := by
  refine ⟨?_, ?_, ?_, ?_⟩ <;>
  · simp only [visitStmts, visitStmt]
    rw [funcClassify_none _ _ rfl]
    rw [paramFold_spec]
    simp only [List.foldl_cons, List.foldl_nil, decoratorStep, decoratorRoute, decoratorNamed,
      methodsKwStep, methodEltStep, visitExprs, visitExpr, visitKws, callHead, initState]
    simp [List.filter_append, List.filter_cons]
    first
    | (intro a a1 b hmem
       have hk := paramsEnts_mem_kind fname args _ hmem
       simp at hk
       simp [hk])
    | (intro a a1 b hmem
       have hk := paramsRels_mem_tag fname args _ hmem
       simp at hk
       simp [hk])

/-- C7 counterexample: the top-level function `f(self, y)` returning a
two-key literal mapping is a function with exactly two declared parameters,
yet the walker emits exactly one `Parameter` entity, because the filter is
by the name `'self'`, not by being a method's implicit receiver. -/
theorem c7_two_param_returns_counterexample :
    ((visitStmts (initState "m.py")
      [.functionDef "f" ["self", "y"]
        [.ret (some (.dict [some (.constant (.vstr "a")), some (.constant (.vstr "b"))]
          [.constant (.vint 1), .constant (.vint 2)]))] []]).entities.filter
        (fun e => e.1 == "Parameter")).length = 1 := by
  decide

/-- C7 (amended): for a top-level function with exactly two declared
parameters neither of which is named `'self'`, whose only return statement
returns a literal mapping with exactly two constant keys, the walker
produces exactly the two `Parameter` entities scoped to the function name,
the two `ACCEPTS` relationships, and one `RETURNS_FIELDS` relationship
whose target is the stringified list of the two keys in declaration
order. -/
theorem c7_two_param_returns (fname x y file : String) (k1 k2 : PyVal) (v1 v2 : Expr)
    (hx : x ≠ "self") (hy : y ≠ "self") :
    ((visitStmts (initState file)
      [.functionDef fname [x, y]
        [.ret (some (.dict [some (.constant k1), some (.constant k2)] [v1, v2]))] []]).entities.filter
        (fun e => e.1 == "Parameter")) =
      [("Parameter", .vstr x, .vstr fname), ("Parameter", .vstr y, .vstr fname)] ∧
    ((visitStmts (initState file)
      [.functionDef fname [x, y]
        [.ret (some (.dict [some (.constant k1), some (.constant k2)] [v1, v2]))] []]).relationships.filter
        (fun t => t.2.1 == "ACCEPTS")) =
      [(.vstr fname, "ACCEPTS", .vstr x), (.vstr fname, "ACCEPTS", .vstr y)] ∧
    ((visitStmts (initState file)
      [.functionDef fname [x, y]
        [.ret (some (.dict [some (.constant k1), some (.constant k2)] [v1, v2]))] []]).relationships.filter
        (fun t => t.2.1 == "RETURNS_FIELDS")) =
      [(.vstr fname, "RETURNS_FIELDS", .vstr (pyStrOfList [k1, k2]))] := by
  have hx' : (x != "self") = true := by simpa using hx
  have hy' : (y != "self") = true := by simpa using hy
  have hE : ∀ (S : AState) (e : Expr), (visitExpr S e).entities = S.entities :=
    fun S e => CRAdded_entities (visitExpr_CR e S)
  have hRF : ∀ (S : AState) (e : Expr) (k : String), k ≠ "USES_INPUT" → k ≠ "MAKES_REQUEST" →
      (visitExpr S e).relationships.filter (fun t => t.2.1 == k) =
        S.relationships.filter (fun t => t.2.1 == k) := by
    intro S e k h1 h2
    obtain ⟨rs, heq, htags⟩ := CRAdded_rels (visitExpr_CR e S)
    rw [heq, List.filter_append, filter_tags_nil rs k htags h1 h2, List.append_nil]
  have hRFa := fun S e => hRF S e "ACCEPTS" (by decide) (by decide)
  have hRFr := fun S e => hRF S e "RETURNS_FIELDS" (by decide) (by decide)
  refine ⟨?_, ?_, ?_⟩ <;>
  · simp only [visitStmts, visitStmt, List.foldl_nil]
    rw [funcClassify_none _ _ rfl]
    rw [paramFold_spec]
    simp only [visitStmts, visitStmt, returnHead, dictConstKeys, List.foldl_cons, List.foldl_nil,
      visitExpr, visitOptExprs, visitExprs]
    simp only [hE, hRFa, hRFr]
    simp [List.filter_append, List.filter_cons, paramsEnts, paramsRels, hx', hy', initState]

theorem c7_two_param_returns_witness :
    ((visitStmts (initState "m.py")
      [.functionDef "f" ["a", "b"]
        [.ret (some (.dict [some (.constant (.vstr "k1")), some (.constant (.vstr "k2"))]
          [.constant (.vint 1), .constant (.vint 2)]))] []]).entities.filter
        (fun e => e.1 == "Parameter")) =
      [("Parameter", .vstr "a", .vstr "f"), ("Parameter", .vstr "b", .vstr "f")] :=
  (c7_two_param_returns "f" "a" "b" "m.py" (.vstr "k1") (.vstr "k2")
    (.constant (.vint 1)) (.constant (.vint 2)) (by decide) (by decide)).1

/-- C8 counterexample: in `class C: def m(this): pass`, the first parameter
of the instance method is named `this`, and the walker does produce a
`Parameter` entity for it — the first parameter is not excluded; only the
name `'self'` is. -/
theorem c8_self_filter_counterexample :
    ("Parameter", PyVal.vstr "this", PyVal.vstr "m") ∈
      (visitStmts (initState "a.py")
        [.classDef "C" [] [.functionDef "m" ["this"] [.pass_] []] []]).entities := by
  decide

/-- C8 (amended): for a method of a class, parameters are filtered by name,
not position: every declared parameter named `'self'` (in any position)
produces no `Parameter` entity and no `ACCEPTS` relationship, and every
other declared parameter produces exactly one `Parameter` entity scoped to
the method name and exactly one `ACCEPTS` relationship from the method to
the parameter name. -/
theorem c8_self_filter (c m file : String) (args : List String) (hnd : args.Nodup) :
    ∀ a ∈ args,
      ((visitStmts (initState file)
        [.classDef c [] [.functionDef m args [.pass_] []] []]).entities.count
          ("Parameter", PyVal.vstr a, PyVal.vstr m) = if a = "self" then 0 else 1) ∧
      ((visitStmts (initState file)
        [.classDef c [] [.functionDef m args [.pass_] []] []]).relationships.count
          (PyVal.vstr m, "ACCEPTS", PyVal.vstr a) = if a = "self" then 0 else 1) := by
  intro a ha
  simp only [visitStmts, visitStmt, List.foldl_nil, List.foldl_cons, visitExprs]
  rw [funcClassify_some _ _ c rfl]
  rw [paramFold_spec]
  simp only [List.foldl_nil, visitStmts, visitStmt, visitExprs]
  simp only [List.nil_append, List.count_append]
  rw [paramsEnts_count, paramsRels_count]
  by_cases hself : a = "self"
  · subst hself
    rw [count_filter_self]
    constructor
    · simp [initState]
    · simp [initState]
  · rw [count_filter_ne_self args a hself]
    rw [List.count_eq_one_of_mem hnd ha]
    constructor
    · simp [hself, initState]
    · simp [hself, initState]

theorem c8_self_filter_witness :
    ((visitStmts (initState "a.py")
      [.classDef "C" [] [.functionDef "m" ["this", "self"] [.pass_] []] []]).entities.count
        ("Parameter", PyVal.vstr "this", PyVal.vstr "m") = 1) ∧
    ((visitStmts (initState "a.py")
      [.classDef "C" [] [.functionDef "m" ["this", "self"] [.pass_] []] []]).relationships.count
        (PyVal.vstr "m", "ACCEPTS", PyVal.vstr "this") = 1) ∧
    ((visitStmts (initState "a.py")
      [.classDef "C" [] [.functionDef "m" ["this", "self"] [.pass_] []] []]).entities.count
        ("Parameter", PyVal.vstr "self", PyVal.vstr "m") = 0) ∧
    ((visitStmts (initState "a.py")
      [.classDef "C" [] [.functionDef "m" ["this", "self"] [.pass_] []] []]).relationships.count
        (PyVal.vstr "m", "ACCEPTS", PyVal.vstr "self") = 0) := by
  have hthis := c8_self_filter "C" "m" "a.py" ["this", "self"] (by decide) "this" (by decide)
  have hself := c8_self_filter "C" "m" "a.py" ["this", "self"] (by decide) "self" (by decide)
  refine ⟨?_, ?_, ?_, ?_⟩
  · simpa using hthis.1
  · simpa using hthis.2
  · simpa using hself.1
  · simpa using hself.2

end CodeKG
